import Mathlib

/-!
Verification of the syntask server core: the pause-expiration loop service
(`src/syntask/server/services/pause_expirations.py`), the orchestration
state-machine boundary it calls, the generic loop-service driver, and the
worker-pool schema introduced by the migration
`2022_11_24_143620_f7587d6c5776_add_worker_tables.py`.

Timestamps are modelled as integers (`Int`); `pendulum.now("UTC")` becomes an
explicit `now : Int` parameter.  The flow-run table is a list of rows; the
SQL query `select(FlowRun).where(FlowRun.state_type == PAUSED).limit(n)`
becomes a filter-then-take over that list (the spec only requires a stable
order within one transaction, which a list provides).
-/

namespace Syntask

/-- The run state taxonomy (`syntask.server.schemas.states.StateType`). -/
inductive StateType where
  | SCHEDULED
  | PENDING
  | RUNNING
  | PAUSED
  | COMPLETED
  | FAILED
  | CRASHED
  | CANCELLING
  | CANCELLED
deriving DecidableEq, Repr

/-- Terminal states: Completed, Failed, Crashed, Cancelled. -/
def StateType.isTerminal : StateType → Bool
  | .COMPLETED => true
  | .FAILED => true
  | .CRASHED => true
  | .CANCELLED => true
  | _ => false

/-- The state-details payload; the pause-expiration service only reads
`pause_timeout`, which may be unset (`None`). -/
structure StateDetails where
  pauseTimeout : Option Int
deriving DecidableEq, Repr

/-- A state value: its type, optional message and details payload. -/
structure State where
  stype : StateType
  message : Option String
  stateDetails : StateDetails
deriving DecidableEq, Repr

/-- The `states.Failed(message=...)` constructor: a Failed state carrying the
given message and an empty details payload. -/
def Failed (message : String) : State :=
  { stype := .FAILED, message := some message, stateDetails := { pauseTimeout := none } }

/-- A flow-run row.  The denormalized `state_type` column always mirrors the
current state, so we store the state once and read its type for the column. -/
structure FlowRun where
  id : Nat
  state : State
deriving DecidableEq, Repr

/-- The `flow_run.state_type` column used by the service query. -/
def FlowRun.state_type (r : FlowRun) : StateType := r.state.stype

/-- The flow-run table visible to one pass. -/
abbrev Store := List FlowRun

/-- Errors surfaced by the orchestration state machine (spec section 4.1). -/
inductive OrchError where
  | InvalidTransition
  | RunNotFound
  | TerminalStateViolation
deriving DecidableEq, Repr

/-- Modelled from the spec: the State Machine's `set_state` contract
(section 4.1); `models.flow_runs.set_flow_run_state` is not among the source
files.  Re-issuing the current state is an idempotent no-op; a transition out
of a terminal state is rejected with `TerminalStateViolation` even when
forced; `force=True` otherwise bypasses the rule table and writes the
proposed state; the normal path consults the rule table and fails with
`InvalidTransition` when no rule permits the pair. -/
def set_state (rules : State → State → Bool) (current proposed : State)
    (force : Bool) : Except OrchError State :=
  if proposed = current then .ok current
  else if current.stype.isTerminal then .error .TerminalStateViolation
  else if force then .ok proposed
  else if rules current proposed then .ok proposed
  else .error .InvalidTransition

/-- A record of one invocation of `set_flow_run_state`: the run id, the
proposed state (with its message) and the `force` flag. -/
structure SetStateCall where
  flowRunId : Nat
  state : State
  force : Bool
deriving DecidableEq, Repr

/-- An error escaping one pass of `run_once`.  `pauseTimeoutNoneComparison`
is the `TypeError` raised by `pause_timeout < now` when `pause_timeout` is
`None`; `orchestration e` is an error raised by `set_flow_run_state`. -/
inductive PassError where
  | pauseTimeoutNoneComparison
  | orchestration (e : OrchError)
deriving DecidableEq, Repr

instance {ε α : Type} [DecidableEq ε] [DecidableEq α] : DecidableEq (Except ε α)
  | .error a, .error b =>
    if h : a = b then .isTrue (by rw [h]) else .isFalse (by simp [h])
  | .error _, .ok _ => .isFalse (by simp)
  | .ok _, .error _ => .isFalse (by simp)
  | .ok a, .ok b =>
    if h : a = b then .isTrue (by rw [h]) else .isFalse (by simp [h])

/-- The fixed batch size set in `FailExpiredPauses.__init__`. -/
def batchSize : Nat := 200

/-- The message attached to the Failed state by the service. -/
def expiredMessage : String := "The flow was paused and never resumed."

/-- The state proposed by the service for an expired pause. -/
def expiredFailedState : State := Failed expiredMessage

/-- Embeds `FailExpiredPauses._mark_flow_run_as_failed`: when the run's
`pause_timeout` is earlier than `now`, call `set_flow_run_state` with a
Failed state carrying `expiredMessage` and `force=True`; otherwise leave the
run alone.  Returns the (possibly updated) run together with the call made,
or the error raised.  A `None` timeout makes the `<` comparison raise. -/
def markFlowRunAsFailed (rules : State → State → Bool) (now : Int)
    (run : FlowRun) : Except PassError (FlowRun × Option SetStateCall) :=
  match run.state.stateDetails.pauseTimeout with
  | none => .error .pauseTimeoutNoneComparison
  | some t =>
    if t < now then
      match set_state rules run.state expiredFailedState true with
      | .ok s => .ok ({ run with state := s }, some ⟨run.id, expiredFailedState, true⟩)
      | .error e => .error (.orchestration e)
    else
      .ok (run, none)

/-- The batch query of `run_once`: flow runs whose `state_type` is PAUSED,
limited to `batchSize` rows. -/
def selectPausedBatch (store : Store) : List FlowRun :=
  (store.filter fun r => r.state_type = StateType.PAUSED).take batchSize

/-- The `for run in runs:` body of `run_once`: mark each run of the batch in
turn, updating its row in the table (the ORM mutates the row in place, keyed
by id).  There is no try/except around the per-candidate call, so the first
error aborts the remaining candidates; the calls already made are returned
alongside the outcome. -/
def processBatch (rules : State → State → Bool) (now : Int) :
    List FlowRun → Store → Except PassError Store × List SetStateCall
  | [], store => (.ok store, [])
  | r :: rest, store =>
    match markFlowRunAsFailed rules now r with
    | .error e => (.error e, [])
    | .ok (r2, callOpt) =>
      let store2 := store.map fun x => if x.id = r.id then r2 else x
      let res := processBatch rules now rest store2
      (res.1, callOpt.toList ++ res.2)

/-- The `while True:` batch loop of `FailExpiredPauses.run_once`: fetch a
batch, mark each run, and stop once a batch is smaller than `batchSize`.
`fuel` bounds the number of batch iterations; `none` means the loop had not
finished within `fuel` iterations.  On success the result carries the final
table, every `set_flow_run_state` call made, and the sizes of the fetched
batches in order; on an escaping error it carries the calls made and the
batch sizes fetched up to that point. -/
def runOnceLoop (rules : State → State → Bool) (now : Int) :
    Nat → Store → Option (Except PassError Store × List SetStateCall × List Nat)
  | 0, _ => none
  | fuel + 1, store =>
    let batch := selectPausedBatch store
    match processBatch rules now batch store with
    | (.error e, calls) => some (.error e, calls, [batch.length])
    | (.ok store2, calls) =>
      if batch.length < batchSize then some (.ok store2, calls, [batch.length])
      else
        match runOnceLoop rules now fuel store2 with
        | none => none
        | some (res, calls2, trace) => some (res, calls ++ calls2, batch.length :: trace)

/-- A rule table permitting nothing: used in concrete runs to show that the
service relies on `force=True`, never on a permissive rule. -/
def noRules : State → State → Bool := fun _ _ => false

/-- A Paused state with the given pause timeout. -/
def pausedState (timeout : Option Int) : State :=
  { stype := .PAUSED, message := none, stateDetails := { pauseTimeout := timeout } }

/-- A Paused run with the given id and pause timeout. -/
def pausedRun (i : Nat) (timeout : Option Int) : FlowRun :=
  { id := i, state := pausedState timeout }

/-- The row produced by a successful forced fail of run `r`. -/
def failOf (r : FlowRun) : FlowRun := { r with state := expiredFailedState }

/-- The `set_flow_run_state` invocation the service makes for run `r`. -/
def callOf (r : FlowRun) : SetStateCall := ⟨r.id, expiredFailedState, true⟩

/-- A run is an expired pause at time `now`. -/
def expiredPausedAt (now : Int) (r : FlowRun) : Prop :=
  r.state.stype = StateType.PAUSED ∧
    ∃ t, r.state.stateDetails.pauseTimeout = some t ∧ t < now

theorem set_state_paused_force (rules : State → State → Bool) (s : State)
    (hp : s.stype = StateType.PAUSED) :
    set_state rules s expiredFailedState true = .ok expiredFailedState := by
  have hne : expiredFailedState ≠ s := by
    intro h
    rw [← h] at hp
    exact absurd hp (by decide)
  have hterm : s.stype.isTerminal = false := by rw [hp]; rfl
  simp [set_state, hne, hterm]

theorem mark_expired (rules : State → State → Bool) (now : Int) (r : FlowRun)
    (hp : r.state.stype = StateType.PAUSED) (t : Int)
    (ht : r.state.stateDetails.pauseTimeout = some t) (hlt : t < now) :
    markFlowRunAsFailed rules now r = .ok (failOf r, some (callOf r)) := by
  unfold markFlowRunAsFailed
  rw [ht]
  simp [hlt, set_state_paused_force rules r.state hp, failOf, callOf]

theorem mark_unexpired (rules : State → State → Bool) (now : Int) (r : FlowRun)
    (t : Int) (ht : r.state.stateDetails.pauseTimeout = some t) (hge : ¬ t < now) :
    markFlowRunAsFailed rules now r = .ok (r, none) := by
  unfold markFlowRunAsFailed
  rw [ht]
  simp [hge]

theorem mark_timeout_none (rules : State → State → Bool) (now : Int) (r : FlowRun)
    (ht : r.state.stateDetails.pauseTimeout = none) :
    markFlowRunAsFailed rules now r = .error .pauseTimeoutNoneComparison := by
  unfold markFlowRunAsFailed
  rw [ht]

theorem mark_error_of_paused (rules : State → State → Bool) (now : Int) (r : FlowRun)
    (hp : r.state.stype = StateType.PAUSED) (e : PassError)
    (h : markFlowRunAsFailed rules now r = .error e) :
    e = .pauseTimeoutNoneComparison := by
  rcases hto : r.state.stateDetails.pauseTimeout with _ | t
  · simp only [markFlowRunAsFailed, hto] at h
    injection h with h1
    exact h1.symm
  · simp only [markFlowRunAsFailed, hto] at h
    by_cases hlt : t < now
    · rw [if_pos hlt, set_state_paused_force rules r.state hp] at h
      cases h
    · rw [if_neg hlt] at h
      cases h

theorem mark_ok_id (rules : State → State → Bool) (now : Int) (r r2 : FlowRun)
    (c : Option SetStateCall) (h : markFlowRunAsFailed rules now r = .ok (r2, c)) :
    r2.id = r.id := by
  rcases hto : r.state.stateDetails.pauseTimeout with _ | t
  · simp only [markFlowRunAsFailed, hto] at h
    cases h
  · simp only [markFlowRunAsFailed, hto] at h
    by_cases hlt : t < now
    · rw [if_pos hlt] at h
      rcases hs : set_state rules r.state expiredFailedState true with e1 | s
      · rw [hs] at h
        cases h
      · rw [hs] at h
        injection h with h1
        rw [Prod.mk.injEq] at h1
        rw [← h1.1]
    · rw [if_neg hlt] at h
      injection h with h1
      rw [Prod.mk.injEq] at h1
      rw [← h1.1]

theorem replace_map_ids (store : Store) (r r2 : FlowRun) (hid : r2.id = r.id) :
    (store.map fun x => if x.id = r.id then r2 else x).map FlowRun.id =
      store.map FlowRun.id := by
  rw [List.map_map]
  apply List.map_congr_left
  intro a _
  by_cases hc : a.id = r.id
  · simp [Function.comp, hc, hid]
  · simp [Function.comp, hc]

theorem processBatch_ok_ids (rules : State → State → Bool) (now : Int) :
    ∀ (batch : List FlowRun) (store store2 : Store) (calls : List SetStateCall),
      processBatch rules now batch store = (.ok store2, calls) →
      store2.map FlowRun.id = store.map FlowRun.id := by
  intro batch
  induction batch with
  | nil =>
    intro store store2 calls h
    simp only [processBatch] at h
    rw [Prod.mk.injEq] at h
    injection h.1 with h1
    rw [h1]
  | cons r rest ih =>
    intro store store2 calls h
    simp only [processBatch] at h
    rcases hm : markFlowRunAsFailed rules now r with e | rc
    · rw [hm] at h
      rw [Prod.mk.injEq] at h
      cases h.1
    · rcases rc with ⟨r2, cOpt⟩
      rw [hm] at h
      rw [Prod.mk.injEq] at h
      rcases hpb : processBatch rules now rest
          (store.map fun x => if x.id = r.id then r2 else x) with ⟨res1, calls1⟩
      rw [hpb] at h
      have hres : res1 = .ok store2 := h.1
      have hstep := ih _ store2 calls1 (by rw [hpb, hres])
      rw [hstep]
      exact replace_map_ids store r r2 (mark_ok_id rules now r r2 cOpt hm)

theorem processBatch_cons_store (rules : State → State → Bool) (now : Int) :
    ∀ (batch : List FlowRun) (x : FlowRun) (store : Store),
      x.id ∉ batch.map FlowRun.id →
      processBatch rules now batch (x :: store) =
        ((processBatch rules now batch store).1.map (fun s => x :: s),
          (processBatch rules now batch store).2) := by
  intro batch
  induction batch with
  | nil =>
    intro x store _
    simp [processBatch, Except.map]
  | cons r rest ih =>
    intro x store hx
    have hxr : ¬ x.id = r.id := by
      intro hc
      exact hx (by simp [hc])
    have hxrest : x.id ∉ rest.map FlowRun.id := by
      intro hc
      exact hx (by simp [hc])
    rcases hm : markFlowRunAsFailed rules now r with e | rc
    · simp only [processBatch, hm, Except.map]
    · rcases rc with ⟨r2, cOpt⟩
      simp only [processBatch, hm]
      have hhead : ((x :: store).map fun y => if y.id = r.id then r2 else y) =
          x :: (store.map fun y => if y.id = r.id then r2 else y) := by
        simp [hxr]
      rw [hhead, ih x _ hxrest]

theorem processBatch_append_store (rules : State → State → Bool) (now : Int)
    (batch : List FlowRun) :
    ∀ (pre store : Store),
      (∀ x ∈ pre, x.id ∉ batch.map FlowRun.id) →
      processBatch rules now batch (pre ++ store) =
        ((processBatch rules now batch store).1.map (fun s => pre ++ s),
          (processBatch rules now batch store).2) := by
  intro pre
  induction pre with
  | nil =>
    intro store _
    rcases hpb : processBatch rules now batch store with ⟨res1, calls1⟩
    rcases res1 with e1 | s1
    · simpa [Except.map] using hpb
    · simpa [Except.map] using hpb
  | cons x pre2 ih =>
    intro store hpre
    have hx : x.id ∉ batch.map FlowRun.id := hpre x (by simp)
    have hrest : ∀ y ∈ pre2, y.id ∉ batch.map FlowRun.id := by
      intro y hy
      exact hpre y (by simp [hy])
    rw [List.cons_append, processBatch_cons_store rules now batch x (pre2 ++ store) hx,
      ih store hrest]
    rcases hpb : processBatch rules now batch store with ⟨res1, calls1⟩
    rcases res1 with e1 | s1 <;> simp [Except.map]

theorem nodup_id_inj (store : Store) (hnd : (store.map FlowRun.id).Nodup)
    (x r : FlowRun) (hx : x ∈ store) (hr : r ∈ store) (h : x.id = r.id) : x = r :=
  List.inj_on_of_nodup_map hnd hx hr h

theorem processBatch_drain (rules : State → State → Bool) (now : Int) :
    ∀ (front rest : List FlowRun),
      (∀ r ∈ front, expiredPausedAt now r) →
      (((front ++ rest).map FlowRun.id)).Nodup →
      processBatch rules now front (front ++ rest) =
        (.ok (front.map failOf ++ rest), front.map callOf) := by
  intro front
  induction front with
  | nil =>
    intro rest _ _
    simp [processBatch]
  | cons r front2 ih =>
    intro rest hexp hnd
    obtain ⟨hp, t, ht, hlt⟩ := hexp r (by simp)
    have hm := mark_expired rules now r hp t ht hlt
    have hnd2 : (FlowRun.id r :: (front2 ++ rest).map FlowRun.id).Nodup := by
      simpa using hnd
    have hrid : FlowRun.id r ∉ (front2 ++ rest).map FlowRun.id :=
      (List.nodup_cons.mp hnd2).1
    have hndrest : ((front2 ++ rest).map FlowRun.id).Nodup :=
      (List.nodup_cons.mp hnd2).2
    have hmapfix : ((front2 ++ rest).map fun x => if x.id = r.id then failOf r else x) =
        front2 ++ rest := by
      have hcong : ∀ a ∈ front2 ++ rest,
          (if a.id = r.id then failOf r else a) = id a := by
        intro a ha
        have hane : ¬ a.id = r.id := by
          intro hc
          exact hrid (List.mem_map.mpr ⟨a, ha, hc⟩)
        simp [hane]
      rw [List.map_congr_left hcong, List.map_id]
    have hfid : (failOf r).id ∉ front2.map FlowRun.id := by
      intro hc
      apply hrid
      rw [List.map_append]
      exact List.mem_append.mpr (Or.inl hc)
    simp only [List.cons_append, processBatch, hm]
    have hstore2 :
        ((r :: (front2 ++ rest)).map fun x => if x.id = r.id then failOf r else x) =
          failOf r :: (front2 ++ rest) := by
      rw [List.map_cons, hmapfix, if_pos rfl]
    rw [hstore2, processBatch_cons_store rules now front2 (failOf r) (front2 ++ rest) hfid,
      ih rest (fun r2 h2 => hexp r2 (by simp [h2])) hndrest]
    simp [Except.map, failOf, callOf]

theorem processBatch_fixed (rules : State → State → Bool) (now : Int) :
    ∀ (batch : List FlowRun) (store : Store),
      (∀ r ∈ batch, markFlowRunAsFailed rules now r = .ok (r, none)) →
      (∀ r ∈ batch, ∀ x ∈ store, x.id = r.id → x = r) →
      processBatch rules now batch store = (.ok store, []) := by
  intro batch
  induction batch with
  | nil =>
    intro store _ _
    simp [processBatch]
  | cons r rest ih =>
    intro store hmk huniq
    have hm := hmk r (by simp)
    simp only [processBatch, hm]
    have hfix : (store.map fun x => if x.id = r.id then r else x) = store := by
      have hcong : ∀ a ∈ store, (if a.id = r.id then r else a) = id a := by
        intro a ha
        by_cases hc : a.id = r.id
        · simp [hc, huniq r (by simp) a ha hc]
        · simp [hc]
      rw [List.map_congr_left hcong, List.map_id]
    rw [hfix, ih store (fun x hx => hmk x (by simp [hx]))
      (fun x hx => huniq x (by simp [hx]))]
    simp

theorem selectPaused_of_allPaused (store : Store)
    (h : ∀ r ∈ store, r.state.stype = StateType.PAUSED) :
    selectPausedBatch store = store.take batchSize := by
  unfold selectPausedBatch
  congr 1
  rw [List.filter_eq_self]
  intro a ha
  simp [FlowRun.state_type, h a ha]

/-- C3: the batch loop of `run_once` does not terminate when `batchSize` or
more Paused runs have unexpired timeouts: every batch re-selects the same
unexpired runs, leaves them Paused, and is never smaller than `batchSize`,
so no amount of fuel completes the pass.  (The claim says the pass must
terminate; the code loops forever on this input, contradicting the
docstring's promise to query only runs "that have timed out".) -/
theorem runOnce_diverges_on_unexpired_backlog (rules : State → State → Bool)
    (now : Int) (store : Store)
    (hall : ∀ r ∈ store, r.state.stype = StateType.PAUSED ∧
      ∃ t, r.state.stateDetails.pauseTimeout = some t ∧ ¬ t < now)
    (hnd : (store.map FlowRun.id).Nodup)
    (hlen : batchSize ≤ store.length) :
    ∀ fuel, runOnceLoop rules now fuel store = none := by
  intro fuel
  induction fuel with
  | zero => rfl
  | succ n ih =>
    have hsel : selectPausedBatch store = store.take batchSize :=
      selectPaused_of_allPaused store (fun r hr => (hall r hr).1)
    have hblen : (store.take batchSize).length = batchSize := by
      rw [List.length_take]
      exact Nat.min_eq_left hlen
    have hsub : ∀ r ∈ store.take batchSize, r ∈ store :=
      fun r hr => List.take_subset batchSize store hr
    have hpb : processBatch rules now (store.take batchSize) store = (.ok store, []) := by
      apply processBatch_fixed
      · intro r hr
        obtain ⟨_, t, ht, hge⟩ := hall r (hsub r hr)
        exact mark_unexpired rules now r t ht hge
      · intro r hr x hx hid
        exact nodup_id_inj store hnd x r hx (hsub r hr) hid
    simp only [runOnceLoop, hsel, hpb, hblen]
    rw [if_neg (lt_irrefl batchSize), ih]

/-- The concrete backlog for the witness: two hundred Paused runs, every
pause timeout still in the future at time 10. -/
def unexpired200 : Store := (List.range 200).map fun i => pausedRun i (some 100)

/-- Witness for the divergence theorem: at the concrete 200-run backlog the
pass never returns, for any number of batch iterations. -/
theorem runOnce_diverges_on_unexpired_backlog_witness :
    runOnceLoop noRules 10 5 unexpired200 = none := by
  apply runOnce_diverges_on_unexpired_backlog
  · intro r hr
    simp only [unexpired200, List.mem_map] at hr
    obtain ⟨i, _, rfl⟩ := hr
    exact ⟨rfl, 100, rfl, by decide⟩
  · have hids : unexpired200.map FlowRun.id = List.range 200 := by
      rw [unexpired200, List.map_map]
      exact List.map_id' (List.range 200)
    rw [hids]
    exact List.nodup_range 200
  · have : unexpired200.length = 200 := by simp [unexpired200]
    rw [this]
    exact Nat.le_refl 200

theorem selectPaused_subset (store : Store) : ∀ r ∈ selectPausedBatch store, r ∈ store :=
  fun _ hr =>
    List.mem_of_mem_filter (List.take_subset batchSize _ hr)

theorem selectPaused_paused (store : Store) :
    ∀ r ∈ selectPausedBatch store, r.state.stype = StateType.PAUSED := by
  intro r hr
  have hf := List.take_subset batchSize _ hr
  have := (List.mem_filter.mp hf).2
  simpa [FlowRun.state_type] using this

theorem selectPaused_ids_nodup (store : Store) (hnd : (store.map FlowRun.id).Nodup) :
    ((selectPausedBatch store).map FlowRun.id).Nodup := by
  have hsub : (selectPausedBatch store).Sublist store :=
    (List.take_sublist _ _).trans (List.filter_sublist store)
  exact (hsub.map FlowRun.id).nodup hnd

theorem selectPaused_complete (store : Store)
    (hsmall : (selectPausedBatch store).length < batchSize) :
    ∀ r ∈ store, r.state.stype = StateType.PAUSED → r ∈ selectPausedBatch store := by
  intro r hr hp
  have hflt : (store.filter fun x => x.state_type = StateType.PAUSED).length < batchSize := by
    by_contra hge
    have : (selectPausedBatch store).length = batchSize := by
      unfold selectPausedBatch
      rw [List.length_take]
      exact Nat.min_eq_left (Nat.le_of_not_lt hge)
    omega
  have hall : selectPausedBatch store = store.filter fun x => x.state_type = StateType.PAUSED := by
    unfold selectPausedBatch
    exact List.take_of_length_le (Nat.le_of_lt hflt)
  rw [hall, List.mem_filter]
  exact ⟨hr, by simp [FlowRun.state_type, hp]⟩

theorem processBatch_call_mem (rules : State → State → Bool) (now : Int) :
    ∀ (batch : List FlowRun) (store store2 : Store) (calls : List SetStateCall)
      (r r2 : FlowRun) (c : SetStateCall),
      r ∈ batch → markFlowRunAsFailed rules now r = .ok (r2, some c) →
      processBatch rules now batch store = (.ok store2, calls) → c ∈ calls := by
  intro batch
  induction batch with
  | nil =>
    intro store store2 calls r r2 c hr
    cases hr
  | cons b rest ih =>
    intro store store2 calls r r2 c hr hmr h
    rcases hmb : markFlowRunAsFailed rules now b with e | bc
    · simp only [processBatch, hmb] at h
      rw [Prod.mk.injEq] at h
      cases h.1
    · rcases bc with ⟨b2, cb⟩
      simp only [processBatch, hmb] at h
      rcases hpb : processBatch rules now rest
          (store.map fun x => if x.id = b.id then b2 else x) with ⟨res1, calls1⟩
      rw [hpb] at h
      rw [Prod.mk.injEq] at h
      have hcalls : calls = cb.toList ++ calls1 := h.2.symm
      rcases List.mem_cons.mp hr with hrb | hrrest
      · subst hrb
        rw [hmr] at hmb
        injection hmb with h1
        rw [Prod.mk.injEq] at h1
        rw [hcalls, ← h1.2]
        simp
      · have hres1 : res1 = .ok store2 := h.1
        have hmem := ih _ store2 calls1 r r2 c hrrest hmr (by rw [hpb, hres1])
        rw [hcalls]
        exact List.mem_append.mpr (Or.inr hmem)

theorem processBatch_untouched (rules : State → State → Bool) (now : Int) :
    ∀ (batch : List FlowRun) (store store2 : Store) (calls : List SetStateCall)
      (r : FlowRun),
      r ∈ store →
      (∀ b ∈ batch, b.id = r.id →
        b = r ∧ markFlowRunAsFailed rules now b = .ok (b, none)) →
      processBatch rules now batch store = (.ok store2, calls) → r ∈ store2 := by
  intro batch
  induction batch with
  | nil =>
    intro store store2 calls r hr _ h
    simp only [processBatch] at h
    rw [Prod.mk.injEq] at h
    injection h.1 with h1
    rw [← h1]
    exact hr
  | cons b rest ih =>
    intro store store2 calls r hr hb h
    rcases hmb : markFlowRunAsFailed rules now b with e | bc
    · simp only [processBatch, hmb] at h
      rw [Prod.mk.injEq] at h
      cases h.1
    · rcases bc with ⟨b2, cb⟩
      simp only [processBatch, hmb] at h
      rcases hpb : processBatch rules now rest
          (store.map fun x => if x.id = b.id then b2 else x) with ⟨res1, calls1⟩
      rw [hpb] at h
      rw [Prod.mk.injEq] at h
      have hres1 : res1 = .ok store2 := h.1
      have hrmem : r ∈ store.map fun x => if x.id = b.id then b2 else x := by
        by_cases hid : b.id = r.id
        · obtain ⟨hbr, hmk⟩ := hb b (by simp) hid
          rw [hmk] at hmb
          injection hmb with h1
          rw [Prod.mk.injEq] at h1
          have hb2 : b2 = b := h1.1.symm
          have hfix : (if r.id = b.id then b2 else r) = r := by
            rw [hb2, hbr]
            simp
          exact List.mem_map.mpr ⟨r, hr, hfix⟩
        · have hne : ¬ r.id = b.id := fun hc => hid hc.symm
          have hfix : (if r.id = b.id then b2 else r) = r := by
            simp [hne]
          exact List.mem_map.mpr ⟨r, hr, hfix⟩
      exact ih _ store2 calls1 r hrmem
        (fun x hx hxid => hb x (by simp [hx]) hxid) (by rw [hpb, hres1])

/-- C1: a completed pass of `run_once` invokes `set_flow_run_state` with a
Failed target state carrying exactly the message "The flow was paused and
never resumed." and `force=True` for every Paused run whose `pause_timeout`
is earlier than the current time, and leaves every Paused run whose
`pause_timeout` has not elapsed unchanged in the table. -/
theorem runOnce_fails_expired_preserves_unexpired
    (rules : State → State → Bool) (now : Int) :
    ∀ (fuel : Nat) (store store2 : Store) (calls : List SetStateCall) (trace : List Nat),
      (store.map FlowRun.id).Nodup →
      runOnceLoop rules now fuel store = some (.ok store2, calls, trace) →
      ∀ r ∈ store, r.state.stype = StateType.PAUSED →
        ∀ t, r.state.stateDetails.pauseTimeout = some t →
          (t < now →
            (⟨r.id, Failed "The flow was paused and never resumed.", true⟩ :
              SetStateCall) ∈ calls) ∧
          (¬ t < now → r ∈ store2) := by
  intro fuel
  induction fuel with
  | zero =>
    intro store store2 calls trace _ h
    cases h
  | succ n ih =>
    intro store store2 calls trace hnd h
    simp only [runOnceLoop] at h
    rcases hpb : processBatch rules now (selectPausedBatch store) store with ⟨res1, calls1⟩
    rcases res1 with e1 | store1
    · simp [hpb] at h
    · simp only [hpb] at h
      by_cases hlen : (selectPausedBatch store).length < batchSize
      · rw [if_pos hlen] at h
        simp only [Option.some.injEq, Prod.mk.injEq, Except.ok.injEq] at h
        obtain ⟨hst, hcalls, _⟩ := h
        intro r hr hp t ht
        constructor
        · intro hlt
          have hrb : r ∈ selectPausedBatch store :=
            selectPaused_complete store hlen r hr hp
          have hmr := mark_expired rules now r hp t ht hlt
          have hmem := processBatch_call_mem rules now _ store store1 calls1 r
            (failOf r) (callOf r) hrb hmr hpb
          rw [← hcalls]
          exact hmem
        · intro hge
          have hr1 : r ∈ store1 := by
            apply processBatch_untouched rules now _ store store1 calls1 r hr ?_ hpb
            intro b hb hbid
            have hbr : b = r :=
              nodup_id_inj store hnd b r (selectPaused_subset store b hb) hr hbid
            exact ⟨hbr, by rw [hbr]; exact mark_unexpired rules now r t ht hge⟩
          rw [← hst]
          exact hr1
      · rw [if_neg hlen] at h
        rcases hrec : runOnceLoop rules now n store1 with _ | res2
        · rw [hrec] at h
          simp at h
        · rcases res2 with ⟨res2e, calls2, trace2⟩
          rw [hrec] at h
          simp only [Option.some.injEq, Prod.mk.injEq] at h
          obtain ⟨hres2, hcalls, _⟩ := h
          have hnd1 : (store1.map FlowRun.id).Nodup := by
            rw [processBatch_ok_ids rules now _ store store1 calls1 hpb]
            exact hnd
          have hrec2 : runOnceLoop rules now n store1 = some (.ok store2, calls2, trace2) := by
            rw [hrec, hres2]
          intro r hr hp t ht
          constructor
          · intro hlt
            by_cases hrb : r ∈ selectPausedBatch store
            · have hmr := mark_expired rules now r hp t ht hlt
              have hmem := processBatch_call_mem rules now _ store store1 calls1 r
                (failOf r) (callOf r) hrb hmr hpb
              rw [← hcalls]
              exact List.mem_append.mpr (Or.inl hmem)
            · have hr1 : r ∈ store1 := by
                apply processBatch_untouched rules now _ store store1 calls1 r hr ?_ hpb
                intro b hb hbid
                have hbr : b = r :=
                  nodup_id_inj store hnd b r (selectPaused_subset store b hb) hr hbid
                exact absurd (hbr ▸ hb) hrb
              have hmem :=
                (ih store1 store2 calls2 trace2 hnd1 hrec2 r hr1 hp t ht).1 hlt
              rw [← hcalls]
              exact List.mem_append.mpr (Or.inr hmem)
          · intro hge
            have hr1 : r ∈ store1 := by
              apply processBatch_untouched rules now _ store store1 calls1 r hr ?_ hpb
              intro b hb hbid
              have hbr : b = r :=
                nodup_id_inj store hnd b r (selectPaused_subset store b hb) hr hbid
              exact ⟨hbr, by rw [hbr]; exact mark_unexpired rules now r t ht hge⟩
            exact (ih store1 store2 calls2 trace2 hnd1 hrec2 r hr1 hp t ht).2 hge

/-- Witness for C1: at time 10, a pass over a store holding one expired
Paused run (timeout 5) and one unexpired Paused run (timeout 20) records the
forced Failed call for the expired run and keeps the unexpired run. -/
theorem runOnce_fails_expired_preserves_unexpired_witness :
    ((⟨0, Failed "The flow was paused and never resumed.", true⟩ : SetStateCall) ∈
        [(⟨0, expiredFailedState, true⟩ : SetStateCall)]) ∧
    pausedRun 1 (some 20) ∈
      ([{ id := 0, state := expiredFailedState }, pausedRun 1 (some 20)] : Store) := by
  have h := runOnce_fails_expired_preserves_unexpired noRules 10 1
      [pausedRun 0 (some 5), pausedRun 1 (some 20)]
      [{ id := 0, state := expiredFailedState }, pausedRun 1 (some 20)]
      [⟨0, expiredFailedState, true⟩] [2] (by decide) (by decide)
  constructor
  · exact (h (pausedRun 0 (some 5)) (by decide) rfl 5 rfl).1 (by decide)
  · exact (h (pausedRun 1 (some 20)) (by decide) rfl 20 rfl).2 (by decide)

/-- A block of Paused runs with ids `a, a+1, ..., a+n-1`, every pause
timeout equal to 5. -/
def pBlock (a n : Nat) : Store :=
  (List.range' a n).map fun i => pausedRun i (some 5)

/-- The same block after the service has failed every run in it. -/
def fBlock (a n : Nat) : Store :=
  (List.range' a n).map fun i => { id := i, state := expiredFailedState }

/-- The `set_flow_run_state` calls the service makes for a block. -/
def cBlock (a n : Nat) : List SetStateCall :=
  (List.range' a n).map fun i => ⟨i, expiredFailedState, true⟩

/-- The 450 expired Paused runs of the batch-draining scenario. -/
def store450 : Store := pBlock 0 450

/-- All 450 runs failed. -/
def failedStore450 : Store := fBlock 0 450

/-- The 450 forced calls, in id order. -/
def calls450 : List SetStateCall := cBlock 0 450

theorem pBlock_ids (a n : Nat) : (pBlock a n).map FlowRun.id = List.range' a n := by
  rw [pBlock, List.map_map]
  rw [show (FlowRun.id ∘ fun i => pausedRun i (some 5)) = fun i : Nat => i from rfl]
  exact List.map_id' _

theorem fBlock_ids (a n : Nat) : (fBlock a n).map FlowRun.id = List.range' a n := by
  rw [fBlock, List.map_map]
  rw [show (FlowRun.id ∘ fun i : Nat => ({ id := i, state := expiredFailedState } : FlowRun)) =
    fun i : Nat => i from rfl]
  exact List.map_id' _

theorem pBlock_append (a n m : Nat) :
    pBlock a n ++ pBlock (a + n) m = pBlock a (m + n) := by
  rw [pBlock, pBlock, pBlock, ← List.map_append]
  congr 1
  have h := List.range'_append a n m 1
  rw [one_mul] at h
  exact h

theorem fBlock_append (a n m : Nat) :
    fBlock a n ++ fBlock (a + n) m = fBlock a (m + n) := by
  rw [fBlock, fBlock, fBlock, ← List.map_append]
  congr 1
  have h := List.range'_append a n m 1
  rw [one_mul] at h
  exact h

theorem pBlock_fail (a n : Nat) : (pBlock a n).map failOf = fBlock a n := by
  rw [pBlock, fBlock, List.map_map]
  rfl

theorem pBlock_calls (a n : Nat) : (pBlock a n).map callOf = cBlock a n := by
  rw [pBlock, cBlock, List.map_map]
  rfl

theorem cBlock_append (a n m : Nat) :
    cBlock a n ++ cBlock (a + n) m = cBlock a (m + n) := by
  rw [cBlock, cBlock, cBlock, ← List.map_append]
  congr 1
  have h := List.range'_append a n m 1
  rw [one_mul] at h
  exact h

theorem pBlock_len (a n : Nat) : (pBlock a n).length = n := by
  rw [pBlock, List.length_map, List.length_range']

theorem pBlock_expired (a n : Nat) : ∀ r ∈ pBlock a n, expiredPausedAt 10 r := by
  intro r hr
  rw [pBlock] at hr
  obtain ⟨i, _, rfl⟩ := List.mem_map.mp hr
  exact ⟨rfl, 5, rfl, by decide⟩

theorem pBlock_paused (a n : Nat) :
    ∀ r ∈ pBlock a n, r.state.stype = StateType.PAUSED := by
  intro r hr
  rw [pBlock] at hr
  obtain ⟨i, _, rfl⟩ := List.mem_map.mp hr
  rfl

theorem fBlock_failed (a n : Nat) :
    ∀ r ∈ fBlock a n, r.state.stype = StateType.FAILED := by
  intro r hr
  rw [fBlock] at hr
  obtain ⟨i, _, rfl⟩ := List.mem_map.mp hr
  rfl

theorem fBlock_disjoint (a n b m : Nat) (h : a + n ≤ b) :
    ∀ x ∈ fBlock a n, x.id ∉ (pBlock b m).map FlowRun.id := by
  intro x hx hmem
  rw [pBlock_ids, List.mem_range'_1] at hmem
  rw [fBlock] at hx
  obtain ⟨i, hi, rfl⟩ := List.mem_map.mp hx
  rw [List.mem_range'_1] at hi
  have hxid : ({ id := i, state := expiredFailedState } : FlowRun).id = i := rfl
  rw [hxid] at hmem
  omega

theorem runOnce_step (rules : State → State → Bool) (now : Int) (fuel : Nat)
    (pre A post : Store)
    (hpre : ∀ r ∈ pre, r.state.stype = StateType.FAILED)
    (hA : ∀ r ∈ A, expiredPausedAt now r)
    (hpost : ∀ r ∈ post, r.state.stype = StateType.PAUSED)
    (hnd : ((A ++ post).map FlowRun.id).Nodup)
    (hdisj : ∀ x ∈ pre, x.id ∉ A.map FlowRun.id)
    (hAlen : A.length = batchSize) :
    runOnceLoop rules now (fuel + 1) (pre ++ (A ++ post)) =
      Option.map (fun rct => (rct.1, A.map callOf ++ rct.2.1, batchSize :: rct.2.2))
        (runOnceLoop rules now fuel (pre ++ (A.map failOf ++ post))) := by
  have hApaused : ∀ r ∈ A, r.state.stype = StateType.PAUSED := fun r hr => (hA r hr).1
  have hAppaused : ∀ r ∈ A ++ post, r.state.stype = StateType.PAUSED := by
    intro r hr
    rcases List.mem_append.mp hr with h1 | h2
    · exact hApaused r h1
    · exact hpost r h2
  have hfilterpre : pre.filter (fun r => r.state_type = StateType.PAUSED) = [] :=
    List.filter_eq_nil_iff.mpr (by intro a ha; simp [FlowRun.state_type, hpre a ha])
  have hfilterA : (A ++ post).filter (fun r => r.state_type = StateType.PAUSED) =
      A ++ post :=
    List.filter_eq_self.mpr (by intro a ha; simp [FlowRun.state_type, hAppaused a ha])
  have hsel : selectPausedBatch (pre ++ (A ++ post)) = A := by
    unfold selectPausedBatch
    rw [List.filter_append, hfilterpre, hfilterA, List.nil_append, ← hAlen,
      List.take_left]
  have hdrain : processBatch rules now A (A ++ post) =
      (.ok (A.map failOf ++ post), A.map callOf) :=
    processBatch_drain rules now A post hA hnd
  have hframe : processBatch rules now A (pre ++ (A ++ post)) =
      (.ok (pre ++ (A.map failOf ++ post)), A.map callOf) := by
    rw [processBatch_append_store rules now A pre (A ++ post) hdisj, hdrain]
    rfl
  simp only [runOnceLoop, hsel, hframe, hAlen]
  rw [if_neg (lt_irrefl batchSize)]
  rcases runOnceLoop rules now fuel (pre ++ (A.map failOf ++ post)) with _ | ⟨res, c2, tr⟩
  · rfl
  · rfl

theorem runOnce_final_step (rules : State → State → Bool) (now : Int) (fuel : Nat)
    (pre A : Store)
    (hpre : ∀ r ∈ pre, r.state.stype = StateType.FAILED)
    (hA : ∀ r ∈ A, expiredPausedAt now r)
    (hnd : (A.map FlowRun.id).Nodup)
    (hdisj : ∀ x ∈ pre, x.id ∉ A.map FlowRun.id)
    (hAlen : A.length < batchSize) :
    runOnceLoop rules now (fuel + 1) (pre ++ A) =
      some (.ok (pre ++ A.map failOf), A.map callOf, [A.length]) := by
  have hApaused : ∀ r ∈ A, r.state.stype = StateType.PAUSED := fun r hr => (hA r hr).1
  have hfilterpre : pre.filter (fun r => r.state_type = StateType.PAUSED) = [] :=
    List.filter_eq_nil_iff.mpr (by intro a ha; simp [FlowRun.state_type, hpre a ha])
  have hfilterA : A.filter (fun r => r.state_type = StateType.PAUSED) = A :=
    List.filter_eq_self.mpr (by intro a ha; simp [FlowRun.state_type, hApaused a ha])
  have hsel : selectPausedBatch (pre ++ A) = A := by
    unfold selectPausedBatch
    rw [List.filter_append, hfilterpre, hfilterA, List.nil_append]
    exact List.take_of_length_le (Nat.le_of_lt hAlen)
  have hdrain : processBatch rules now A (A ++ []) =
      (.ok (A.map failOf ++ []), A.map callOf) :=
    processBatch_drain rules now A [] hA (by rw [List.append_nil]; exact hnd)
  rw [List.append_nil, List.append_nil] at hdrain
  have hframe : processBatch rules now A (pre ++ A) =
      (.ok (pre ++ A.map failOf), A.map callOf) := by
    rw [processBatch_append_store rules now A pre A hdisj, hdrain]
    rfl
  simp only [runOnceLoop, hsel, hframe]
  rw [if_pos hAlen]

set_option maxRecDepth 10000

theorem block_decomp_450 :
    store450 = pBlock 0 200 ++ (pBlock 200 200 ++ pBlock 400 50) := by
  have e1 : pBlock 200 200 ++ pBlock 400 50 = pBlock 200 250 := by
    have h := pBlock_append 200 200 50
    norm_num at h
    exact h
  have e0 : pBlock 0 200 ++ pBlock 200 250 = pBlock 0 450 := by
    have h := pBlock_append 0 200 250
    norm_num at h
    exact h
  rw [e1, e0]
  rfl

theorem fblock_merge_400 : fBlock 0 200 ++ fBlock 200 200 = fBlock 0 400 := by
  have h := fBlock_append 0 200 200
  norm_num at h
  exact h

theorem fblock_merge_450 : fBlock 0 400 ++ fBlock 400 50 = fBlock 0 450 := by
  have h := fBlock_append 0 400 50
  norm_num at h
  exact h

theorem mid_ids_nodup :
    ((pBlock 200 200 ++ pBlock 400 50).map FlowRun.id).Nodup := by
  have e1 : pBlock 200 200 ++ pBlock 400 50 = pBlock 200 250 := by
    have h := pBlock_append 200 200 50
    norm_num at h
    exact h
  rw [e1, pBlock_ids]
  exact List.nodup_range' 200 250

/-- C2: with 450 expired Paused runs and `batch_size = 200`, one call to
`run_once` moves all 450 runs to Failed before returning, fetching exactly
three internal batches of sizes 200, 200 and 50 (each processed inside its
own transaction of the loop body), and two batch iterations do not suffice:
the loop only stops after the third batch, the first one smaller than
`batchSize`. -/
theorem runOnce_drains_450_in_three_batches :
    runOnceLoop noRules 10 3 store450 =
      some (.ok failedStore450, calls450, [200, 200, 50]) ∧
    runOnceLoop noRules 10 2 store450 = none := by
  have hpost1 : ∀ r ∈ pBlock 200 200 ++ pBlock 400 50,
      r.state.stype = StateType.PAUSED := by
    intro r hr
    rcases List.mem_append.mp hr with h1 | h2
    · exact pBlock_paused 200 200 r h1
    · exact pBlock_paused 400 50 r h2
  have hnd1 : (((pBlock 0 200) ++ (pBlock 200 200 ++ pBlock 400 50)).map
      FlowRun.id).Nodup := by
    rw [← block_decomp_450]
    have : store450.map FlowRun.id = List.range' 0 450 := pBlock_ids 0 450
    rw [this]
    exact List.nodup_range' 0 450
  have hstep1 := runOnce_step noRules 10 2 [] (pBlock 0 200)
    (pBlock 200 200 ++ pBlock 400 50) (by simp) (pBlock_expired 0 200) hpost1 hnd1
    (by simp) (by rw [pBlock_len]; rfl)
  rw [List.nil_append, List.nil_append, pBlock_fail] at hstep1
  have hstep2 := runOnce_step noRules 10 1 (fBlock 0 200) (pBlock 200 200)
    (pBlock 400 50) (fBlock_failed 0 200) (pBlock_expired 200 200)
    (pBlock_paused 400 50) mid_ids_nodup
    (fBlock_disjoint 0 200 200 200 (by norm_num)) (by rw [pBlock_len]; rfl)
  rw [pBlock_fail] at hstep2
  have hassoc : fBlock 0 200 ++ (fBlock 200 200 ++ pBlock 400 50) =
      fBlock 0 400 ++ pBlock 400 50 := by
    rw [← List.append_assoc, fblock_merge_400]
  have hstep3 := runOnce_final_step noRules 10 0 (fBlock 0 400) (pBlock 400 50)
    (fBlock_failed 0 400) (pBlock_expired 400 50)
    (by rw [pBlock_ids]; exact List.nodup_range' 400 50)
    (fBlock_disjoint 0 400 400 50 (by norm_num)) (by rw [pBlock_len]; decide)
  rw [pBlock_fail, pBlock_calls, pBlock_len, fblock_merge_450] at hstep3
  constructor
  · rw [block_decomp_450, hstep1, hstep2, hassoc, hstep3]
    have hc1 : cBlock 200 200 ++ cBlock 400 50 = cBlock 200 250 := by
      have h := cBlock_append 200 200 50
      norm_num at h
      exact h
    have hc0 : cBlock 0 200 ++ cBlock 200 250 = cBlock 0 450 := by
      have h := cBlock_append 0 200 250
      norm_num at h
      exact h
    simp only [Option.map_some']
    rw [pBlock_calls 0 200, pBlock_calls 200 200, hc1, hc0]
    rfl
  · have hstep2b := runOnce_step noRules 10 0 (fBlock 0 200) (pBlock 200 200)
      (pBlock 400 50) (fBlock_failed 0 200) (pBlock_expired 200 200)
      (pBlock_paused 400 50) mid_ids_nodup
      (fBlock_disjoint 0 200 200 200 (by norm_num)) (by rw [pBlock_len]; rfl)
    rw [pBlock_fail] at hstep2b
    have hstep1b := runOnce_step noRules 10 1 [] (pBlock 0 200)
      (pBlock 200 200 ++ pBlock 400 50) (by simp) (pBlock_expired 0 200) hpost1 hnd1
      (by simp) (by rw [pBlock_len]; rfl)
    rw [List.nil_append, List.nil_append, pBlock_fail] at hstep1b
    rw [block_decomp_450, hstep1b, hstep2b]
    rfl

/-- The five-candidate batch of the isolation scenario: candidate 2 has no
pause timeout, so processing it raises; candidates 1, 3, 4 and 5 are expired
pauses. -/
def store5 : Store :=
  [pausedRun 1 (some 5), pausedRun 2 none, pausedRun 3 (some 5),
    pausedRun 4 (some 5), pausedRun 5 (some 5)]

/-- C4 counterexample: with five Paused candidates in one batch and candidate
2 raising, `run_once` raises instead of completing the pass, and only
candidate 1 was processed — no call was made for candidates 3, 4 or 5
(the call list holds exactly candidate 1's call). -/
theorem runOnce_isolation_counterexample :
    runOnceLoop noRules 10 1 store5 =
      some (.error .pauseTimeoutNoneComparison,
        [⟨1, expiredFailedState, true⟩], [5]) ∧
    (⟨3, expiredFailedState, true⟩ : SetStateCall) ∉
      [(⟨1, expiredFailedState, true⟩ : SetStateCall)] :=
  ⟨by decide, by decide⟩

/-- C4 amended: there is no per-candidate error handling in `run_once`: an
error raised while marking one candidate aborts the batch immediately — the
remaining candidates are not processed and no call is recorded for them —
and a batch error makes the whole pass raise instead of completing. -/
theorem runOnce_candidate_error_aborts_pass
    (rules : State → State → Bool) (now : Int) :
    (∀ (r : FlowRun) (rest : List FlowRun) (store : Store) (e : PassError),
      markFlowRunAsFailed rules now r = .error e →
      processBatch rules now (r :: rest) store = (.error e, [])) ∧
    (∀ (store : Store) (e : PassError) (calls : List SetStateCall) (fuel : Nat),
      processBatch rules now (selectPausedBatch store) store = (.error e, calls) →
      runOnceLoop rules now (fuel + 1) store =
        some (.error e, calls, [(selectPausedBatch store).length])) := by
  constructor
  · intro r rest store e hm
    simp only [processBatch, hm]
  · intro store e calls fuel hpb
    simp only [runOnceLoop, hpb]

/-- Witness for the amended C4 at the concrete five-run batch: the head
candidate of the remaining batch raises, so the tail is dropped, and the
batch error surfaces from the pass. -/
theorem runOnce_candidate_error_aborts_pass_witness :
    processBatch noRules 10 (pausedRun 2 none :: [pausedRun 3 (some 5)]) store5 =
      (.error .pauseTimeoutNoneComparison, []) ∧
    runOnceLoop noRules 10 1 store5 =
      some (.error .pauseTimeoutNoneComparison,
        [⟨1, expiredFailedState, true⟩], [(selectPausedBatch store5).length]) := by
  constructor
  · exact (runOnce_candidate_error_aborts_pass noRules 10).1
      (pausedRun 2 none) [pausedRun 3 (some 5)] store5
      .pauseTimeoutNoneComparison (by decide)
  · exact (runOnce_candidate_error_aborts_pass noRules 10).2 store5
      .pauseTimeoutNoneComparison [⟨1, expiredFailedState, true⟩] 0 (by decide)

theorem processBatch_error_of_none (rules : State → State → Bool) (now : Int) :
    ∀ (batch : List FlowRun) (store : Store) (r : FlowRun),
      r ∈ batch → (∀ b ∈ batch, b.state.stype = StateType.PAUSED) →
      r.state.stateDetails.pauseTimeout = none →
      ∃ calls, processBatch rules now batch store =
        (.error .pauseTimeoutNoneComparison, calls) := by
  intro batch
  induction batch with
  | nil =>
    intro store r hr
    cases hr
  | cons b rest ih =>
    intro store r hr hpau ht
    rcases hmb : markFlowRunAsFailed rules now b with e | bc
    · have he : e = .pauseTimeoutNoneComparison :=
        mark_error_of_paused rules now b (hpau b (by simp)) e hmb
      exact ⟨[], by simp only [processBatch, hmb, he]⟩
    · rcases bc with ⟨b2, cb⟩
      rcases List.mem_cons.mp hr with hrb | hrrest
      · have hbt : b.state.stateDetails.pauseTimeout = none := by
          rw [← hrb]
          exact ht
        rw [mark_timeout_none rules now b hbt] at hmb
        cases hmb
      · obtain ⟨calls1, hc⟩ := ih (store.map fun x => if x.id = b.id then b2 else x)
          r hrrest (fun x hx => hpau x (by simp [hx])) ht
        refine ⟨cb.toList ++ calls1, ?_⟩
        simp only [processBatch, hmb, hc]

/-- C6: `run_once` is total only when every selected Paused run has a set
`pause_timeout`: if any selected run has `pause_timeout` unset, the `<`
comparison against the current time raises, nothing inside `run_once`
catches it, and the whole pass aborts with that error instead of skipping
the run. -/
theorem runOnce_aborts_on_none_pause_timeout
    (rules : State → State → Bool) (now : Int) (store : Store) (r : FlowRun)
    (hr : r ∈ selectPausedBatch store)
    (ht : r.state.stateDetails.pauseTimeout = none) (fuel : Nat) :
    ∃ calls trace, runOnceLoop rules now (fuel + 1) store =
      some (.error .pauseTimeoutNoneComparison, calls, trace) := by
  obtain ⟨calls, hc⟩ := processBatch_error_of_none rules now
    (selectPausedBatch store) store r hr (selectPaused_paused store) ht
  exact ⟨calls, [(selectPausedBatch store).length], by simp only [runOnceLoop, hc]⟩

/-- Witness for C6: a store holding a single Paused run with no pause
timeout makes the pass abort with the comparison error. -/
theorem runOnce_aborts_on_none_pause_timeout_witness :
    ∃ calls trace, runOnceLoop noRules 10 1 [pausedRun 0 none] =
      some (.error .pauseTimeoutNoneComparison, calls, trace) :=
  runOnce_aborts_on_none_pause_timeout noRules 10 [pausedRun 0 none]
    (pausedRun 0 none) (by decide) rfl 0

/-- C5: for every run in a terminal state (Completed, Failed, Crashed,
Cancelled — the states `StateType.isTerminal` accepts) and every proposed
state other than the current one, `set_state` fails with
`TerminalStateViolation` and writes nothing, even when `force=True`; and
`force=True` bypasses only the rule table: from a non-terminal state it
writes any distinct proposed state unconditionally. -/
theorem set_state_terminal_absolute :
    (∀ (rules : State → State → Bool) (current proposed : State) (force : Bool),
      current.stype.isTerminal = true → proposed ≠ current →
      set_state rules current proposed force = .error .TerminalStateViolation) ∧
    (∀ (rules : State → State → Bool) (current proposed : State),
      current.stype.isTerminal = false → proposed ≠ current →
      set_state rules current proposed true = .ok proposed) := by
  constructor
  · intro rules current proposed force hterm hne
    simp [set_state, hne, hterm]
  · intro rules current proposed hterm hne
    simp [set_state, hne, hterm]

/-- Witness for C5: a run in the terminal Failed state rejects a forced
transition to a different Failed state, while a Paused run accepts it. -/
theorem set_state_terminal_absolute_witness :
    set_state noRules (Failed "done") expiredFailedState true =
      .error .TerminalStateViolation ∧
    set_state noRules (pausedState (some 5)) expiredFailedState true =
      .ok expiredFailedState :=
  ⟨set_state_terminal_absolute.1 noRules (Failed "done") expiredFailedState true
      (by decide) (by decide),
    set_state_terminal_absolute.2 noRules (pausedState (some 5)) expiredFailedState
      (by decide) (by decide)⟩

/-- Modelled from the spec: the Loop Service driver's iteration and error
policy (sections 4.3 and 7); `loop_service.py` is not among the source
files — only `test_telemetry.py`, which exercises it, is.  `step i` is the
i-th invocation of `run_once`, returning either success or the raised
exception's short description.  The driver performs at most `loops`
iterations starting at index `i`; an uncaught error from `run_once` is
logged as one error-severity record carrying the exception's short
description and stops the loop — it is not retried.  The result is the
number of `run_once` invocations performed and the error-severity records
emitted. -/
def serviceLoop (step : Nat → Except String Unit) : Nat → Nat → Nat × List String
  | 0, _ => (0, [])
  | loops + 1, i =>
    match step i with
    | .ok _ =>
      let out := serviceLoop step loops (i + 1)
      (out.1 + 1, out.2)
    | .error e => (1, [e])

theorem serviceLoop_shifted (step : Nat → Except String Unit) :
    ∀ (k loops i : Nat) (e : String),
      k < loops → (∀ j, j < k → step (i + j) = .ok ()) → step (i + k) = .error e →
      serviceLoop step loops i = (k + 1, [e]) := by
  intro k
  induction k with
  | zero =>
    intro loops i e hk hok herr
    rcases loops with _ | m
    · omega
    · rw [Nat.add_zero] at herr
      simp only [serviceLoop, herr]
  | succ k ih =>
    intro loops i e hk hok herr
    rcases loops with _ | m
    · omega
    · have hi : step i = .ok () := by
        have := hok 0 (Nat.succ_pos k)
        rwa [Nat.add_zero] at this
      have hok2 : ∀ j, j < k → step (i + 1 + j) = .ok () := by
        intro j hj
        have := hok (j + 1) (by omega)
        rwa [show i + (j + 1) = i + 1 + j by omega] at this
      have herr2 : step (i + 1 + k) = .error e := by
        rwa [show i + (k + 1) = i + 1 + k by omega] at herr
      have hrec := ih m (i + 1) e (by omega) hok2 herr2
      simp only [serviceLoop, hi, hrec]

/-- C7: an unhandled error raised by `run_once` during an iteration stops
the service's run loop — the failing invocation is the last one even when
more iterations were requested — and exactly one error-severity record is
emitted, carrying the causing exception's short description; the failure is
never retried. -/
theorem loopService_error_stops_loop (step : Nat → Except String Unit)
    (loops k : Nat) (e : String) (hk : k < loops)
    (hok : ∀ j, j < k → step j = .ok ()) (herr : step k = .error e) :
    serviceLoop step loops 0 = (k + 1, [e]) := by
  apply serviceLoop_shifted step k loops 0 e hk
  · intro j hj
    rw [Nat.zero_add]
    exact hok j hj
  · rw [Nat.zero_add]
    exact herr

/-- Witness for C7, mirroring `test_errors_shutdown_service`: a service
started with `loops=5` whose `run_once` fails immediately performs exactly
one invocation and emits exactly one error record with the failure text. -/
theorem loopService_error_stops_loop_witness :
    serviceLoop (fun _ => .error "Failed to send telemetry") 5 0 =
      (1, ["Failed to send telemetry"]) :=
  loopService_error_stops_loop (fun _ => .error "Failed to send telemetry") 5 0
    "Failed to send telemetry" (by decide) (fun j hj => absurd hj (Nat.not_lt_zero j))
    rfl

/-- A `worker_pool` row from the migration: `name` is globally unique
(`uq_worker_pool__name`), `concurrency_limit` is nullable. -/
structure WorkerPoolRow where
  id : Nat
  name : String
  isPaused : Bool
  concurrencyLimit : Option Nat
deriving DecidableEq, Repr

/-- A `worker` row: foreign key `worker_pool_id` with `ondelete="cascade"`
(`fk_worker__worker_pool_id__worker_pool`), unique pair
(`worker_pool_id`, `name`) (`uq_worker__worker_pool_id_name`). -/
structure WorkerRow where
  id : Nat
  name : String
  workerPoolId : Nat
deriving DecidableEq, Repr

/-- A `worker_pool_queue` row: foreign key `worker_pool_id` with
`ondelete="cascade"` (`fk_worker_pool_queue__worker_pool_id__worker_pool`),
unique pair (`worker_pool_id`, `name`)
(`uq_worker_pool_queue__worker_pool_id_name`), nullable
`concurrency_limit`, non-null `priority`. -/
structure WorkerPoolQueueRow where
  id : Nat
  name : String
  workerPoolId : Nat
  priority : Nat
  concurrencyLimit : Option Nat
deriving DecidableEq, Repr

/-- The three worker tables created by the migration. -/
structure WorkerDB where
  pools : List WorkerPoolRow
  workers : List WorkerRow
  queues : List WorkerPoolQueueRow
deriving DecidableEq, Repr

/-- Deleting a worker pool: the pool row is removed and, through the two
`ondelete="cascade"` foreign keys, every worker and every queue referencing
it is removed in the same transaction. -/
def deleteWorkerPool (db : WorkerDB) (poolId : Nat) : WorkerDB :=
  { pools := db.pools.filter fun p => ¬ p.id = poolId,
    workers := db.workers.filter fun w => ¬ w.workerPoolId = poolId,
    queues := db.queues.filter fun q => ¬ q.workerPoolId = poolId }

/-- Referential integrity of the worker tables: every worker and every
queue references an existing pool. -/
def refIntegrity (db : WorkerDB) : Prop :=
  (∀ w ∈ db.workers, ∃ p ∈ db.pools, p.id = w.workerPoolId) ∧
  (∀ q ∈ db.queues, ∃ p ∈ db.pools, p.id = q.workerPoolId)

/-- C8: deleting a worker pool removes, in the same transaction, the pool
row, every worker of the pool and every queue of the pool, and preserves
referential integrity of the remaining rows. -/
theorem delete_pool_cascades (db : WorkerDB) (poolId : Nat) :
    (∀ p ∈ (deleteWorkerPool db poolId).pools, p.id ≠ poolId) ∧
    (∀ w ∈ (deleteWorkerPool db poolId).workers, w.workerPoolId ≠ poolId) ∧
    (∀ q ∈ (deleteWorkerPool db poolId).queues, q.workerPoolId ≠ poolId) ∧
    (refIntegrity db → refIntegrity (deleteWorkerPool db poolId)) := by
  refine ⟨?_, ?_, ?_, ?_⟩
  · intro p hp
    have := (List.mem_filter.mp hp).2
    simpa using this
  · intro w hw
    have := (List.mem_filter.mp hw).2
    simpa using this
  · intro q hq
    have := (List.mem_filter.mp hq).2
    simpa using this
  · intro href
    constructor
    · intro w hw
      obtain ⟨hwmem, hwne⟩ := List.mem_filter.mp hw
      obtain ⟨p, hp, hpid⟩ := href.1 w hwmem
      refine ⟨p, List.mem_filter.mpr ⟨hp, ?_⟩, hpid⟩
      simp only [decide_eq_true_eq] at hwne ⊢
      intro hc
      exact hwne (by omega)
    · intro q hq
      obtain ⟨hqmem, hqne⟩ := List.mem_filter.mp hq
      obtain ⟨p, hp, hpid⟩ := href.2 q hqmem
      refine ⟨p, List.mem_filter.mpr ⟨hp, ?_⟩, hpid⟩
      simp only [decide_eq_true_eq] at hqne ⊢
      intro hc
      exact hqne (by omega)

/-- The database used by the C8 witness: one pool with one worker and one
queue. -/
def dbW : WorkerDB :=
  { pools := [⟨1, "default", false, none⟩],
    workers := [⟨1, "w", 1⟩],
    queues := [⟨1, "q", 1, 0, none⟩] }

instance (db : WorkerDB) : Decidable (refIntegrity db) := by
  unfold refIntegrity
  infer_instance

/-- Witness for C8: deleting the only pool of `dbW` leaves no worker or
queue of that pool and an integral database. -/
theorem delete_pool_cascades_witness :
    (∀ w ∈ (deleteWorkerPool dbW 1).workers, w.workerPoolId ≠ 1) ∧
    refIntegrity (deleteWorkerPool dbW 1) :=
  ⟨(delete_pool_cascades dbW 1).2.1,
    (delete_pool_cascades dbW 1).2.2.2 (by decide)⟩

/-- Modelled from the spec: the effective concurrency limit of a queue
(section 4.2, `min(pool.concurrency_limit or ∞, queue.concurrency_limit
or ∞)`).  The nullable `concurrency_limit` columns come from the migration;
no admission-path code computing the combination is among the source
files.  An unbounded result is the absence of a limit (`none`), never a
numeric sentinel. -/
def effectiveConcurrencyLimit (pool queue : Option Nat) : Option Nat :=
  match pool, queue with
  | none, none => none
  | some p, none => some p
  | none, some q => some q
  | some p, some q => some (min p q)

/-- Interpreting a nullable limit as an extended natural: `none` (the null
column) is unbounded, `⊤`. -/
def limitValue : Option Nat → WithTop Nat
  | none => ⊤
  | some n => (n : WithTop Nat)

/-- C9: `concurrency_limit` is nullable at pool and queue level with null
meaning unbounded; the effective limit of a queue is the minimum of the
pool's and the queue's limits with null read as infinity; the result is
unbounded exactly when both levels are null, and unboundedness is
represented by the absence of a limit.  The spec's three examples are
included. -/
theorem effective_concurrency_limit_spec
    (pool : WorkerPoolRow) (queue : WorkerPoolQueueRow) :
    limitValue (effectiveConcurrencyLimit pool.concurrencyLimit
        queue.concurrencyLimit) =
      min (limitValue pool.concurrencyLimit) (limitValue queue.concurrencyLimit) ∧
    (effectiveConcurrencyLimit pool.concurrencyLimit queue.concurrencyLimit = none ↔
      pool.concurrencyLimit = none ∧ queue.concurrencyLimit = none) ∧
    effectiveConcurrencyLimit (some 5) none = some 5 ∧
    effectiveConcurrencyLimit none (some 3) = some 3 ∧
    effectiveConcurrencyLimit none none = none := by
  refine ⟨?_, ?_, rfl, rfl, rfl⟩
  · rcases hp : pool.concurrencyLimit with _ | p <;>
      rcases hq : queue.concurrencyLimit with _ | q
    · simp [effectiveConcurrencyLimit, limitValue]
    · simp only [effectiveConcurrencyLimit, limitValue]
      rw [min_eq_right le_top]
    · simp only [effectiveConcurrencyLimit, limitValue]
      rw [min_eq_left le_top]
    · simp only [effectiveConcurrencyLimit, limitValue]
      exact WithTop.coe_min p q
  · rcases hp : pool.concurrencyLimit with _ | p <;>
      rcases hq : queue.concurrencyLimit with _ | q <;>
      simp [effectiveConcurrencyLimit]

/-- The administrative operations touching the worker tables. -/
inductive WorkerOp where
  | createPool (p : WorkerPoolRow)
  | createWorker (w : WorkerRow)
  | createQueue (q : WorkerPoolQueueRow)
  | deletePool (id : Nat)

/-- Applying one operation.  Inserts enforce the migration's primary keys
and unique constraints (`uq_worker_pool__name`,
`uq_worker__worker_pool_id_name`, `uq_worker_pool_queue__worker_pool_id_name`):
a row colliding with an existing one is rejected and the database is left
unchanged.  Deleting a pool cascades per `deleteWorkerPool`. -/
def applyOp (db : WorkerDB) : WorkerOp → WorkerDB
  | .createPool p =>
    if db.pools.any fun x => x.id = p.id ∨ x.name = p.name then db
    else { db with pools := p :: db.pools }
  | .createWorker w =>
    if db.workers.any fun x =>
        x.id = w.id ∨ (x.workerPoolId = w.workerPoolId ∧ x.name = w.name) then db
    else { db with workers := w :: db.workers }
  | .createQueue q =>
    if db.queues.any fun x =>
        x.id = q.id ∨ (x.workerPoolId = q.workerPoolId ∧ x.name = q.name) then db
    else { db with queues := q :: db.queues }
  | .deletePool i => deleteWorkerPool db i

/-- Identity uniqueness of the worker model: pool names are globally
distinct, workers are distinct on (pool, name), queue names are distinct
within a pool. -/
def uniqueIdentity (db : WorkerDB) : Prop :=
  db.pools.Pairwise (fun a b => a.name ≠ b.name) ∧
  db.workers.Pairwise
    (fun a b => ¬ (a.workerPoolId = b.workerPoolId ∧ a.name = b.name)) ∧
  db.queues.Pairwise
    (fun a b => ¬ (a.workerPoolId = b.workerPoolId ∧ a.name = b.name))

theorem applyOp_preserves_unique (db : WorkerDB) (op : WorkerOp)
    (h : uniqueIdentity db) : uniqueIdentity (applyOp db op) := by
  obtain ⟨hp, hw, hq⟩ := h
  cases op with
  | createPool p =>
    simp only [applyOp]
    split
    · exact ⟨hp, hw, hq⟩
    · rename_i hnone
      refine ⟨List.pairwise_cons.mpr ⟨?_, hp⟩, hw, hq⟩
      intro x hx hc
      exact hnone (List.any_eq_true.mpr ⟨x, hx, by simp [hc.symm]⟩)
  | createWorker w =>
    simp only [applyOp]
    split
    · exact ⟨hp, hw, hq⟩
    · rename_i hnone
      refine ⟨hp, List.pairwise_cons.mpr ⟨?_, hw⟩, hq⟩
      intro x hx hc
      exact hnone (List.any_eq_true.mpr
        ⟨x, hx, by simp [hc.1.symm, hc.2.symm]⟩)
  | createQueue q =>
    simp only [applyOp]
    split
    · exact ⟨hp, hw, hq⟩
    · rename_i hnone
      refine ⟨hp, hw, List.pairwise_cons.mpr ⟨?_, hq⟩⟩
      intro x hx hc
      exact hnone (List.any_eq_true.mpr
        ⟨x, hx, by simp [hc.1.symm, hc.2.symm]⟩)
  | deletePool i =>
    exact ⟨hp.filter _, hw.filter _, hq.filter _⟩

theorem foldl_preserves_unique :
    ∀ (ops : List WorkerOp) (db : WorkerDB), uniqueIdentity db →
      uniqueIdentity (ops.foldl applyOp db) := by
  intro ops
  induction ops with
  | nil =>
    intro db h
    exact h
  | cons op rest ih =>
    intro db h
    exact ih (applyOp db op) (applyOp_preserves_unique db op h)

/-- C10: identity uniqueness is schema-enforced at every level: starting
from the empty database, after any sequence of create and cascade-delete
operations no two pools share a name, no two workers share a
(pool, name) pair, and no two queues of one pool share a name. -/
theorem worker_identity_unique_always (ops : List WorkerOp) :
    uniqueIdentity (ops.foldl applyOp ⟨[], [], []⟩) :=
  foldl_preserves_unique ops ⟨[], [], []⟩
    ⟨List.Pairwise.nil, List.Pairwise.nil, List.Pairwise.nil⟩

end Syntask
